import Mathlib

/-!
# Verification of DFGviz: safe git-history traversal and sandboxed analysis

Shallow embedding of the core of `src/git_history_dataflow_analyzer.py`
(class `SafeGitHistoryAnalyzer`, the GUI `start_analysis` run guard) and of
`src/cmake_parser.py` (class `CMakeParser`), together with proofs of the
specification's claims about them.

Subprocess invocations, the filesystem, and the external analyzer are
modelled by an explicit environment (`Env`): each repository query is a
`GitCmd` whose outcome the environment supplies, exception points in the
Python code (mkdtemp, file writes, the external analyzer, rmtree) are
environment-controlled, and each function returns, besides its value, the
trace of git commands it issued, the files it wrote, the messages it
emitted, and the cleanup outcome.
-/

namespace DFGviz

/-! ### Character-level models of the Python string methods used by the
source (`str.startswith`, `str.strip`, `str.split`).  They are defined by
structural recursion on the character list so that concrete runs evaluate
inside the kernel. -/

/-- Python `s.startswith(p)`. -/
def pyStartsWith (s p : String) : Bool := p.data.isPrefixOf s.data

/-- Python `s.strip()`: drop leading and trailing whitespace. -/
def pyStrip (s : String) : String :=
  ⟨((s.data.dropWhile Char.isWhitespace).reverse.dropWhile Char.isWhitespace).reverse⟩

/-- Split a character list at every character satisfying `p`, keeping
empty groups (the splitting behaviour of Python `s.split('\n')`). -/
def splitOnP (p : Char → Bool) : List Char → List (List Char)
  | [] => [[]]
  | x :: xs =>
    match splitOnP p xs with
    | [] => [[]]
    | g :: gs => if p x then [] :: g :: gs else (x :: g) :: gs

/-- Python `s.split('\n')`. -/
def pySplitLines (s : String) : List String :=
  (splitOnP (· = '\n') s.data).map (⟨·⟩)

/-- Python `s.split()`: whitespace-separated tokens, empties dropped. -/
def pyTokens (s : String) : List String :=
  ((splitOnP Char.isWhitespace s.data).filter (· ≠ [])).map (⟨·⟩)

/-- Outcome of one subprocess invocation: exit code and captured stdout
(`subprocess.run(..., capture_output=True, text=True)`). -/
structure CmdResult where
  exitCode : Nat
  stdout : String
deriving DecidableEq, Repr

/-- The git commands this program can issue.  The analyzer core issues only
the first three (all read-only); the mutating commands exist so that
read-only-ness is a meaningful property of the repository semantics. -/
inductive GitCmd where
  | showFile (rev : String) (path : String)
  | logOnelineAll
  | lsFiles (pattern : String)
  | commitNew (msg : String)
  | resetHard (rev : String)
  | checkoutRev (rev : String)
deriving DecidableEq, Repr

/-- Read-only git queries: `git show`, `git log`, `git ls-files`. -/
def GitCmd.isReadOnly : GitCmd → Bool
  | .showFile _ _ => true
  | .logOnelineAll => true
  | .lsFiles _ => true
  | .commitNew _ => false
  | .resetHard _ => false
  | .checkoutRev _ => false

/-- Observable repository state: HEAD, ref pointers, working tree. -/
structure RepoState where
  head : String
  refs : List (String × String)
  workTree : List (String × String)
deriving DecidableEq, Repr

/-- Repository semantics of a git command.  Read-only queries leave the
state untouched; the mutating commands alter HEAD / refs / working tree
(their precise effect is abstract, it only matters that they change
state). -/
def gitStep (s : RepoState) : GitCmd → RepoState
  | .showFile _ _ => s
  | .logOnelineAll => s
  | .lsFiles _ => s
  | .commitNew msg => { s with head := s.head ++ "+" ++ msg, refs := ("HEAD", s.head ++ "+" ++ msg) :: s.refs }
  | .resetHard rev => { s with head := rev }
  | .checkoutRev rev => { s with head := rev, workTree := [("checkout", rev)] }

/-- The mappings stored under the analyzer result's `variables` /
`metadata` keys. -/
abbrev VarMap := List (String × String)

/-- A Python dict as returned by the external analyzer, viewed through the
keys the core inspects: the `variables` and `metadata` entries (`none` =
key absent) and the number of other keys. -/
structure RawDict where
  vars : Option VarMap
  meta : Option VarMap
  others : Nat
deriving DecidableEq, Repr

/-- Python truthiness of the dict: non-empty, i.e. it has at least one
key. -/
def RawDict.truthy (d : RawDict) : Bool :=
  d.vars.isSome || d.meta.isSome || d.others != 0

/-- Lines 146-149 of `analyze_commit_safely`: insert `variables` /
`metadata` with an empty mapping when the key is missing. -/
def ensureKeys (d : RawDict) : RawDict :=
  { d with vars := some (d.vars.getD []), meta := some (d.meta.getD []) }

/-- Outcome of one call to the external analyzer
(`run_complete_dataflow_analysis`): it raised, returned a falsy or
non-dict value, or returned a dict. -/
inductive AnalyzerOut where
  | raiseExn
  | invalid
  | dict (d : RawDict)
deriving DecidableEq, Repr

/-- Environment the analyzer runs in: outcomes of subprocess calls,
`os.path.relpath` against the repository root, and the
environment-controlled exception points (`tempfile.mkdtemp`, file writes,
the external analyzer, `shutil.rmtree`).  All fields that concern one
pipeline pass are indexed by the commit hash, since each revision gets its
own pass. -/
structure Env where
  git : GitCmd → CmdResult
  rel : String → String
  mkdtemp : String → Option String
  writeRaises : String → String → Bool
  analyzerAvailable : Bool
  analyze : String → List String → AnalyzerOut
  rmtreeOk : String → Bool
  hasCallback : Bool

/-- `SafeGitHistoryAnalyzer.get_file_content_at_commit` (lines 70-91):
run `git show <commit>:<path>`; on exit 0 return the captured stdout, on
`CalledProcessError` (any non-zero exit) return `None`. -/
def get_file_content_at_commit (env : Env) (commit_hash file_path : String) : Option String :=
  let r := env.git (GitCmd.showFile commit_hash file_path)
  if r.exitCode = 0 then some r.stdout else none

/-- The materialization loop of `analyze_commit_safely` (lines 113-126):
for each target file take its path relative to the repo root, skip it when
it escapes the root (`startswith('..')`), fetch its content at the commit,
and when present write it under the temp directory preserving the relative
path.  Returns the git commands issued, the temp files written (in order),
and whether a write raised (which aborts the loop). -/
def materializeLoop (env : Env) (commit dir : String) : List String → List GitCmd × List String × Bool
  | [] => ([], [], false)
  | f :: fs =>
    let rel := env.rel f
    if pyStartsWith rel ".." then materializeLoop env commit dir fs
    else
      let c := GitCmd.showFile commit rel
      match get_file_content_at_commit env commit rel with
      | some _ =>
        if env.writeRaises commit rel then ([c], [], true)
        else
          let rest := materializeLoop env commit dir fs
          (c :: rest.1, (dir ++ "/" ++ rel) :: rest.2.1, rest.2.2)
      | none =>
        let rest := materializeLoop env commit dir fs
        (c :: rest.1, rest.2.1, rest.2.2)

/-- Everything one call to `analyze_commit_safely` does: the returned
value (`none` = Python `None`; every exception inside the pass is caught
and converted to `None`), the git commands issued, the temp files written,
the temp directory created (if `mkdtemp` succeeded), whether `rmtree`
removed it / failed with a warning, and the messages emitted via the
progress callback and on stderr. -/
structure PassResult where
  result : Option RawDict
  trace : List GitCmd
  written : List String
  tempDir : Option String
  removed : Bool
  warned : Bool
  progressMsgs : List String
  stderrMsgs : List String
deriving DecidableEq, Repr

/-- Progress message emitted at the top of the pass (line 105). -/
def msgAnalyzing (h : String) : String := "Analyzing commit " ++ h.take 8 ++ "..."

/-- Progress message when no target file exists at the commit (line 130). -/
def msgNoFiles (h : String) : String := "No files found in commit " ++ h.take 8

/-- Progress message when the analyzer raised (line 157). -/
def msgErrDuring (h : String) : String := "Error during analysis for commit " ++ h.take 8

/-- Progress message when the analyzer returned a falsy/non-dict value (line 153). -/
def msgInvalid (h : String) : String := "Analysis returned invalid result for commit " ++ h.take 8

/-- Progress message when the analysis module is unavailable (line 163). -/
def msgNotAvailable (h : String) : String := "Analysis module not available for commit " ++ h.take 8

/-- Stderr print from the exception handlers (lines 158, 167). -/
def msgErrAnalyzing (h : String) : String := "Error analyzing commit " ++ h

/-- Stderr warning when removing the temp directory fails (line 176). -/
def msgCleanupWarning (dir : String) : String := "Warning: Could not clean up temp directory " ++ dir

/-- The branch structure of `SafeGitHistoryAnalyzer.analyze_commit_safely`
(lines 128-169) after materialization: a write failure was caught by the
outer `except` (`None`); with no materialized file return `None`
("No files found"); with the analysis module unavailable return `None`;
otherwise call the external analyzer, catching its exception (`None`),
rejecting a falsy or non-dict result (`None`), and completing a truthy
dict with empty `variables`/`metadata` keys.  Returns the pass value and
the progress/stderr messages of the branch taken. -/
def passCore (env : Env) (commit : String) (written : List String) (wRaised : Bool) :
    Option RawDict × List String × List String :=
  if wRaised then
    (none, [], [msgErrAnalyzing commit])
  else if written.isEmpty then
    (none, (if env.hasCallback then [msgNoFiles commit] else []), [])
  else if !env.analyzerAvailable then
    (none, (if env.hasCallback then [msgNotAvailable commit] else []), [])
  else
    match env.analyze commit written with
    | .raiseExn =>
      (none, (if env.hasCallback then [msgErrDuring commit] else []), [msgErrAnalyzing commit])
    | .invalid =>
      (none, (if env.hasCallback then [msgInvalid commit] else []), [])
    | .dict d =>
      if d.truthy then (some (ensureKeys d), [], [])
      else (none, (if env.hasCallback then [msgInvalid commit] else []), [])

/-- `SafeGitHistoryAnalyzer.analyze_commit_safely` (lines 93-176):
announce the commit; `mkdtemp` (on failure the outer `except` returns
`None` and `finally` has nothing to remove); materialize the target files;
run the branch logic of `passCore`.  The `finally` block always removes
the temp directory when one was created, downgrading a removal failure to
a stderr warning that never reaches the caller. -/
def analyze_commit_safely (env : Env) (commit : String) (targets : List String) : PassResult :=
  let msg0 := if env.hasCallback then [msgAnalyzing commit] else []
  match env.mkdtemp commit with
  | none =>
    { result := none, trace := [], written := [], tempDir := none,
      removed := false, warned := false,
      progressMsgs := msg0, stderrMsgs := [msgErrAnalyzing commit] }
  | some dir =>
    let mz := materializeLoop env commit dir targets
    let core := passCore env commit mz.2.1 mz.2.2
    { result := core.1, trace := mz.1, written := mz.2.1, tempDir := some dir,
      removed := env.rmtreeOk commit, warned := !env.rmtreeOk commit,
      progressMsgs := msg0 ++ core.2.1,
      stderrMsgs := core.2.2 ++ (if env.rmtreeOk commit then [] else [msgCleanupWarning dir]) }

/-- First whitespace-separated token of a line (`line.split()[0]`). -/
def firstToken (line : String) : String :=
  (pyTokens line).headD ""

/-- Lines 196-197 of `analyze_all_commits`: strip the captured stdout,
split into lines, drop blank lines, and keep the first token (the
abbreviated hash) of each remaining line. -/
def parseCommits (stdout : String) : List String :=
  ((pySplitLines (pyStrip stdout)).filter (fun l => pyStrip l ≠ "")).map firstToken

/-- `result.get('variables')` truthiness: the key is present and maps to a
non-empty mapping. -/
def pyGetTruthy : Option VarMap → Bool
  | none => false
  | some l => !l.isEmpty

/-- Line 215's storage condition on a returned dict:
`result.get('variables') or result.get('metadata')`. -/
def meaningful (d : RawDict) : Bool :=
  pyGetTruthy d.vars || pyGetTruthy d.meta

/-- Progress message announcing revision `i+1` of `total` (line 209). -/
def msgProcessing (i total : Nat) (h : String) : String :=
  "Processing commit " ++ toString (i + 1) ++ "/" ++ toString total ++ ": " ++ h.take 8

/-- Progress note for a present-but-empty result (line 220). -/
def msgNoData (h : String) : String :=
  "Commit " ++ h.take 8 ++ " has no dataflow data"

/-- Stderr print when revision enumeration fails (line 199). -/
def msgEnumError : String := "Error getting commit list"

/-- Accumulated observable effects of the per-revision loop of
`analyze_all_commits`. -/
structure LoopAcc where
  store : List (String × RawDict)
  attempted : List String
  trace : List GitCmd
  progressMsgs : List String
  stderrMsgs : List String
deriving DecidableEq, Repr

/-- The per-revision loop of `analyze_all_commits` (lines 207-221): each
enumerated commit is announced and analyzed; a returned dict is stored iff
`variables` or `metadata` is non-empty (otherwise a progress note is
emitted); a `None` return is never stored. -/
def runLoop (env : Env) (targets : List String) (total : Nat) : Nat → List String → LoopAcc
  | _, [] => ⟨[], [], [], [], []⟩
  | i, h :: hs =>
    let p := analyze_commit_safely env h targets
    let rest := runLoop env targets total (i + 1) hs
    let stored : List (String × RawDict) :=
      match p.result with
      | some d => if meaningful d then [(h, d)] else []
      | none => []
    let noteMsgs : List String :=
      match p.result with
      | some d => if meaningful d then [] else (if env.hasCallback then [msgNoData h] else [])
      | none => []
    { store := stored ++ rest.store,
      attempted := h :: rest.attempted,
      trace := p.trace ++ rest.trace,
      progressMsgs :=
        (if env.hasCallback then [msgProcessing i total h] else [])
          ++ p.progressMsgs ++ noteMsgs ++ rest.progressMsgs,
      stderrMsgs := p.stderrMsgs ++ rest.stderrMsgs }

/-- Everything one call to `analyze_all_commits` does. -/
structure RunResult where
  store : List (String × RawDict)
  attempted : List String
  trace : List GitCmd
  progressMsgs : List String
  stderrMsgs : List String
  enumFailed : Bool
deriving DecidableEq, Repr

/-- `SafeGitHistoryAnalyzer.analyze_all_commits` (lines 178-223): enumerate
all revisions with `git log --oneline --all`; on `CalledProcessError`
print an error and return the empty map; otherwise run the per-revision
loop over the parsed commit list. -/
def analyze_all_commits (env : Env) (targets : List String) : RunResult :=
  let c := GitCmd.logOnelineAll
  let r := env.git c
  if r.exitCode = 0 then
    let commits := parseCommits r.stdout
    let acc := runLoop env targets commits.length 0 commits
    { store := acc.store, attempted := acc.attempted, trace := c :: acc.trace,
      progressMsgs := acc.progressMsgs, stderrMsgs := acc.stderrMsgs, enumFailed := false }
  else
    { store := [], attempted := [], trace := [c],
      progressMsgs := [], stderrMsgs := [msgEnumError], enumFailed := true }

/-- Constructing a `SafeGitHistoryAnalyzer` and running
`analyze_all_commits`: `__init__` (lines 64-68) raises `ValueError` when
`<repo>/.git` does not exist; otherwise the traversal runs.  The
`Except.error` channel is used exactly where the Python raises. -/
def run_history_analysis (gitDirExists : Bool) (repoPath : String) (env : Env)
    (targets : List String) : Except String RunResult :=
  if gitDirExists then Except.ok (analyze_all_commits env targets)
  else Except.error ("Not a git repository: " ++ repoPath)

/-! ## GUI run guard (`GitHistoryDataflowGUI.start_analysis`, lines 881-1053) -/

/-- The orchestrator state the run guard acts on: the `is_analyzing` flag
and the number of live analysis worker threads. -/
structure GuiState where
  isAnalyzing : Bool
  workers : Nat
deriving DecidableEq, Repr

/-- Outcome of one `start_analysis` call. -/
inductive StartOutcome where
  | alreadyRunning
  | validationFailed
  | started
deriving DecidableEq, Repr

/-- `start_analysis` (lines 881-904, 1053): with `is_analyzing` set it
shows a warning and returns at once, starting nothing and queuing nothing;
with a failed validation (`_ensure_analyzer`, empty file list) it returns
without starting; otherwise it sets `is_analyzing` and spawns the worker
thread. -/
def start_analysis (valid : Bool) (s : GuiState) : StartOutcome × GuiState :=
  if s.isAnalyzing then (StartOutcome.alreadyRunning, s)
  else if !valid then (StartOutcome.validationFailed, s)
  else (StartOutcome.started, { isAnalyzing := true, workers := s.workers + 1 })

/-- The worker thread's `finally` (lines 1048-1049): clear `is_analyzing`
and terminate. -/
def finish_worker (s : GuiState) : GuiState :=
  { isAnalyzing := false, workers := s.workers - 1 }

/-- Atomic transitions of the orchestrator: a `start_analysis` call with
any validation outcome, or a live worker finishing. -/
inductive GuiStep : GuiState → GuiState → Prop
  | start (v : Bool) (s : GuiState) : GuiStep s (start_analysis v s).2
  | finish (s : GuiState) (h : 0 < s.workers) : GuiStep s (finish_worker s)

/-- States reachable from the initial state (`is_analyzing = False`, no
worker, line 277). -/
inductive GuiReachable : GuiState → Prop
  | init : GuiReachable ⟨false, 0⟩
  | step {s s' : GuiState} : GuiReachable s → GuiStep s s' → GuiReachable s'

/-! ## CMake parser (`src/cmake_parser.py`) -/

/-- `CMakeParser._resolve_path` (lines 153-164): substitute the CMake
source-dir variables and make a relative path absolute against the source
directory. -/
def resolvePath (sourceDir : String) (pathStr : String) : String :=
  let p := pathStr.replace "$\x7bCMAKE_SOURCE_DIR\x7d" sourceDir
  let p := p.replace "$\x7bCMAKE_CURRENT_SOURCE_DIR\x7d" sourceDir
  let p := p.replace "$\x7bCMAKE_CURRENT_LIST_DIR\x7d" sourceDir
  if pyStartsWith p "/" then p else sourceDir ++ "/" ++ p

/-- `CMakeParser._parse_include_directories` (lines 83-92), given the
argument tokens the regex extracted from the line: resolve each one and
record it only when the resolved path exists.  `ex` is the filesystem's
`Path.exists` at parse time. -/
def parse_include_directories (ex : String → Bool) (sourceDir : String)
    (args : List String) : List String :=
  args.filterMap fun arg =>
    let dir := resolvePath sourceDir arg
    if ex dir then some dir else none

/-- `CMakeParser._parse_file_list` (lines 113-124), over the lines that
follow the `set(SOURCES`/`set(HEADERS` line: stop at a line starting with
`)`, skip blank and comment lines, resolve each entry and record it only
when the resolved path exists. -/
def parse_file_list (ex : String → Bool) (sourceDir : String) : List String → List String
  | [] => []
  | l :: ls =>
    let t := pyStrip l
    if pyStartsWith t ")" then []
    else if t ≠ "" && !pyStartsWith t "#" then
      let p := resolvePath sourceDir t
      if ex p then p :: parse_file_list ex sourceDir ls
      else parse_file_list ex sourceDir ls
    else parse_file_list ex sourceDir ls

/-! ## Helper lemmas -/

lemma gitStep_of_readOnly (s : RepoState) (c : GitCmd) (h : c.isReadOnly = true) :
    gitStep s c = s := by
  cases c <;> first
    | rfl
    | simp [GitCmd.isReadOnly] at h

lemma foldl_gitStep_of_readOnly (l : List GitCmd) (s : RepoState)
    (h : l.all GitCmd.isReadOnly = true) : l.foldl gitStep s = s := by
  induction l generalizing s with
  | nil => rfl
  | cons c cs ih =>
    simp only [List.all_cons, Bool.and_eq_true] at h
    rw [List.foldl_cons, gitStep_of_readOnly s c h.1, ih s h.2]

lemma materializeLoop_trace_readOnly (env : Env) (commit dir : String)
    (targets : List String) :
    (materializeLoop env commit dir targets).1.all GitCmd.isReadOnly = true := by
  induction targets with
  | nil => rfl
  | cons f fs ih =>
    simp only [materializeLoop]
    split
    · exact ih
    · cases get_file_content_at_commit env commit (env.rel f) with
      | some v =>
        simp only
        split
        · rfl
        · simpa [GitCmd.isReadOnly] using ih
      | none => simpa [GitCmd.isReadOnly] using ih

lemma pass_trace_readOnly (env : Env) (commit : String) (targets : List String) :
    (analyze_commit_safely env commit targets).trace.all GitCmd.isReadOnly = true := by
  unfold analyze_commit_safely
  cases env.mkdtemp commit with
  | none => rfl
  | some dir => exact materializeLoop_trace_readOnly env commit dir targets

lemma runLoop_trace_readOnly (env : Env) (targets : List String) (total : Nat)
    (i : Nat) (commits : List String) :
    (runLoop env targets total i commits).trace.all GitCmd.isReadOnly = true := by
  induction commits generalizing i with
  | nil => rfl
  | cons h hs ih =>
    simp only [runLoop, List.all_append, Bool.and_eq_true]
    exact ⟨pass_trace_readOnly env h targets, ih (i + 1)⟩

lemma run_trace_readOnly (env : Env) (targets : List String) :
    (analyze_all_commits env targets).trace.all GitCmd.isReadOnly = true := by
  simp only [analyze_all_commits]
  split
  · simp only [List.all_cons, Bool.and_eq_true]
    exact ⟨rfl, runLoop_trace_readOnly env targets _ 0 _⟩
  · rfl

/-! ## C1 -/

/-- Claim C1: For any repository and any run of the traversal (completed
or failed), every operation the core issues is a read-only git query
(`git show` / `git log`), and replaying the run's whole command trace
against the repository-state semantics leaves HEAD, all ref pointers and
the working tree unchanged. -/
theorem run_readonly_preserves_repo_state (env : Env) (targets : List String) (s : RepoState) :
    (analyze_all_commits env targets).trace.all GitCmd.isReadOnly = true ∧
    (analyze_all_commits env targets).trace.foldl gitStep s = s :=
  ⟨run_trace_readOnly env targets,
   foldl_gitStep_of_readOnly _ s (run_trace_readOnly env targets)⟩

/-! ## C2 -/

lemma materializeLoop_congr (env env' : Env) (hgit : env'.git = env.git)
    (hrel : env'.rel = env.rel) (hwr : env'.writeRaises = env.writeRaises)
    (commit dir : String) (targets : List String) :
    materializeLoop env' commit dir targets = materializeLoop env commit dir targets := by
  induction targets with
  | nil => rfl
  | cons f fs ih =>
    simp only [materializeLoop, ih, get_file_content_at_commit, hgit, hrel, hwr]

lemma passCore_congr (env env' : Env) (ha : env'.analyzerAvailable = env.analyzerAvailable)
    (han : env'.analyze = env.analyze) (hcb : env'.hasCallback = env.hasCallback)
    (commit : String) (written : List String) (wRaised : Bool) :
    passCore env' commit written wRaised = passCore env commit written wRaised := by
  unfold passCore
  rw [ha, han, hcb]

lemma pass_eq_of_mkdtemp_none (env : Env) (commit : String) (targets : List String)
    (hmk : env.mkdtemp commit = none) :
    analyze_commit_safely env commit targets =
      { result := none, trace := [], written := [], tempDir := none,
        removed := false, warned := false,
        progressMsgs := if env.hasCallback then [msgAnalyzing commit] else [],
        stderrMsgs := [msgErrAnalyzing commit] } := by
  unfold analyze_commit_safely
  simp only [hmk]

lemma pass_eq_of_mkdtemp_some (env : Env) (commit : String) (targets : List String)
    (dir : String) (hmk : env.mkdtemp commit = some dir) :
    analyze_commit_safely env commit targets =
      { result := (passCore env commit (materializeLoop env commit dir targets).2.1
                    (materializeLoop env commit dir targets).2.2).1,
        trace := (materializeLoop env commit dir targets).1,
        written := (materializeLoop env commit dir targets).2.1,
        tempDir := some dir,
        removed := env.rmtreeOk commit,
        warned := !env.rmtreeOk commit,
        progressMsgs := (if env.hasCallback then [msgAnalyzing commit] else []) ++
          (passCore env commit (materializeLoop env commit dir targets).2.1
            (materializeLoop env commit dir targets).2.2).2.1,
        stderrMsgs := (passCore env commit (materializeLoop env commit dir targets).2.1
            (materializeLoop env commit dir targets).2.2).2.2 ++
          (if env.rmtreeOk commit then [] else [msgCleanupWarning dir]) } := by
  unfold analyze_commit_safely
  simp only [hmk]

/-- An environment in which `shutil.rmtree` fails for every directory. -/
def cleanupFailEnv : Env where
  git := fun _ => ⟨0, "x = 1\n"⟩
  rel := fun f => f
  mkdtemp := fun _ => some "/tmp/t"
  writeRaises := fun _ _ => false
  analyzerAvailable := true
  analyze := fun _ _ => AnalyzerOut.dict ⟨some [("x", "assigned")], none, 0⟩
  rmtreeOk := fun _ => false
  hasCallback := true

/-- Claim C2: whenever a pass created its sandbox temp directory, the
`finally` block removes it on every exit path (the removal succeeds
exactly when `rmtree` does, and otherwise the pass is flagged as having
warned); a removal failure is reported as a stderr warning; and the pass's
returned value is identical to what it would be were removal always
successful, so the failure never propagates to the caller. -/
theorem sandbox_always_cleaned (env : Env) (commit : String) (targets : List String)
    (dir : String) (hc : (analyze_commit_safely env commit targets).tempDir = some dir) :
    ((analyze_commit_safely env commit targets).removed = env.rmtreeOk commit ∧
     (analyze_commit_safely env commit targets).warned = !env.rmtreeOk commit) ∧
    (env.rmtreeOk commit = false →
      msgCleanupWarning dir ∈ (analyze_commit_safely env commit targets).stderrMsgs) ∧
    (analyze_commit_safely env commit targets).result =
      (analyze_commit_safely { env with rmtreeOk := fun _ => true } commit targets).result := by
  cases hmk : env.mkdtemp commit with
  | none =>
    rw [pass_eq_of_mkdtemp_none env commit targets hmk] at hc
    exact absurd hc (by simp)
  | some d =>
    have e2 := pass_eq_of_mkdtemp_some { env with rmtreeOk := fun _ => true } commit targets d hmk
    rw [pass_eq_of_mkdtemp_some env commit targets d hmk] at hc ⊢
    rw [e2]
    obtain rfl : d = dir := by simpa using hc
    refine ⟨⟨rfl, rfl⟩, fun hrm => ?_, ?_⟩
    · simp [hrm]
    · show (passCore env commit (materializeLoop env commit d targets).2.1
          (materializeLoop env commit d targets).2.2).1 =
        (passCore { env with rmtreeOk := fun _ => true } commit
          (materializeLoop { env with rmtreeOk := fun _ => true } commit d targets).2.1
          (materializeLoop { env with rmtreeOk := fun _ => true } commit d targets).2.2).1
      rw [materializeLoop_congr env { env with rmtreeOk := fun _ => true } rfl rfl rfl commit d targets,
        passCore_congr env { env with rmtreeOk := fun _ => true } rfl rfl rfl commit
          (materializeLoop env commit d targets).2.1 (materializeLoop env commit d targets).2.2]

/-- Concrete instance of `sandbox_always_cleaned`: in an environment where
`rmtree` fails, the pass still ends with the warning on stderr. -/
theorem sandbox_always_cleaned_witness :
    msgCleanupWarning "/tmp/t" ∈
      (analyze_commit_safely cleanupFailEnv "a1b2c3d4e5" ["src/a.py"]).stderrMsgs :=
  (sandbox_always_cleaned cleanupFailEnv "a1b2c3d4e5" ["src/a.py"] "/tmp/t" (by decide)).2.1 rfl

/-! ## C10 -/

lemma passCore_result_keys (env : Env) (commit : String) (written : List String)
    (wRaised : Bool) (d : RawDict)
    (h : (passCore env commit written wRaised).1 = some d) :
    d.vars.isSome = true ∧ d.meta.isSome = true := by
  unfold passCore at h
  split at h
  · exact absurd h (by simp)
  · split at h
    · exact absurd h (by simp)
    · split at h
      · exact absurd h (by simp)
      · split at h
        · exact absurd h (by simp)
        · exact absurd h (by simp)
        · split at h
          · cases h with
            | refl => exact ⟨rfl, rfl⟩
          · exact absurd h (by simp)

/-- An environment whose analyzer returns a truthy dict carrying neither
the `variables` nor the `metadata` key. -/
def keylessDictEnv : Env where
  git := fun _ => ⟨0, "x = 1\n"⟩
  rel := fun f => f
  mkdtemp := fun _ => some "/tmp/t"
  writeRaises := fun _ _ => false
  analyzerAvailable := true
  analyze := fun _ _ => AnalyzerOut.dict ⟨none, none, 2⟩
  rmtreeOk := fun _ => true
  hasCallback := false

/-- Claim C10: every non-`None` value returned by `analyze_commit_safely`
carries both the `variables` and the `metadata` key — when the external
analyzer's dict lacks either, the core inserts it with an empty mapping
before returning. -/
theorem returned_result_has_both_keys (env : Env) (commit : String) (targets : List String)
    (d : RawDict) (h : (analyze_commit_safely env commit targets).result = some d) :
    d.vars.isSome = true ∧ d.meta.isSome = true := by
  unfold analyze_commit_safely at h
  cases hmk : env.mkdtemp commit with
  | none => simp [hmk] at h
  | some dir =>
    simp only [hmk] at h
    exact passCore_result_keys env commit _ _ d h

/-- Concrete instance of `returned_result_has_both_keys`: an analyzer dict
with neither key comes back with both keys inserted as empty mappings. -/
theorem returned_result_has_both_keys_witness :
    (⟨some [], some [], 2⟩ : RawDict).vars.isSome = true ∧
    (⟨some [], some [], 2⟩ : RawDict).meta.isSome = true :=
  returned_result_has_both_keys keylessDictEnv "a1b2c3d4e5" ["src/a.py"]
    ⟨some [], some [], 2⟩ (by decide)

/-! ## C7 -/

lemma materializeLoop_noraise (env : Env) (commit dir : String) (targets : List String)
    (hw : ∀ f ∈ targets, env.writeRaises commit (env.rel f) = false) :
    (materializeLoop env commit dir targets).2.2 = false ∧
    (materializeLoop env commit dir targets).2.1 =
      targets.filterMap (fun f =>
        if !pyStartsWith (env.rel f) ".." &&
            (get_file_content_at_commit env commit (env.rel f)).isSome
        then some (dir ++ "/" ++ env.rel f) else none) := by
  induction targets with
  | nil => exact ⟨rfl, rfl⟩
  | cons f fs ih =>
    have hf : env.writeRaises commit (env.rel f) = false := hw f (List.mem_cons_self f fs)
    have ihs := ih (fun g hg => hw g (List.mem_cons_of_mem f hg))
    simp only [materializeLoop, List.filterMap_cons]
    by_cases hpre : pyStartsWith (env.rel f) ".."
    · simpa [hpre] using ihs
    · cases hget : get_file_content_at_commit env commit (env.rel f) with
      | some v => simp [hpre, hget, hf, ihs.1, ihs.2]
      | none => simpa [hpre, hget] using ihs

/-- An environment with one file present at the revision, one file absent,
and one file resolving outside the repository root. -/
def mixedFilesEnv : Env where
  git := fun c => match c with
    | GitCmd.showFile _ p => if p = "src/a.py" then ⟨0, "x = 1\n"⟩ else ⟨128, ""⟩
    | _ => ⟨0, ""⟩
  rel := fun f => if f = "/elsewhere/evil.py" then "../elsewhere/evil.py" else f
  mkdtemp := fun _ => some "/tmp/t"
  writeRaises := fun _ _ => false
  analyzerAvailable := true
  analyze := fun _ _ => AnalyzerOut.dict ⟨some [("x", "assigned")], none, 0⟩
  rmtreeOk := fun _ => true
  hasCallback := false

/-- Claim C7: when the sandbox directory was created and no write fails,
the pass materializes exactly the target files whose content is present at
the revision — each written under the fresh per-invocation directory at
its repository-relative path — while absent files and files resolving
outside the repository root contribute no materialized path. -/
theorem materialization_writes_exactly_present_files (env : Env) (commit : String)
    (targets : List String) (dir : String) (hmk : env.mkdtemp commit = some dir)
    (hw : ∀ f ∈ targets, env.writeRaises commit (env.rel f) = false) :
    (analyze_commit_safely env commit targets).tempDir = some dir ∧
    (analyze_commit_safely env commit targets).written =
      targets.filterMap (fun f =>
        if !pyStartsWith (env.rel f) ".." &&
            (get_file_content_at_commit env commit (env.rel f)).isSome
        then some (dir ++ "/" ++ env.rel f) else none) := by
  rw [pass_eq_of_mkdtemp_some env commit targets dir hmk]
  exact ⟨rfl, (materializeLoop_noraise env commit dir targets hw).2⟩

/-- Concrete instance of `materialization_writes_exactly_present_files`:
of three targets (present, absent at the revision, outside the repo root)
exactly the present one is written, under the sandbox directory at its
relative path. -/
theorem materialization_writes_exactly_present_files_witness :
    (analyze_commit_safely mixedFilesEnv "a1b2c3d4e5"
        ["src/a.py", "src/gone.py", "/elsewhere/evil.py"]).written = ["/tmp/t/src/a.py"] :=
  (materialization_writes_exactly_present_files mixedFilesEnv "a1b2c3d4e5"
    ["src/a.py", "src/gone.py", "/elsewhere/evil.py"] "/tmp/t" rfl
    (fun f _ => rfl)).2.trans (by decide)

/-! ## C4 -/

/-- An environment in which `git show` fails for the revision `deadbeef`
(revision not found, exit 128) and for the path `absent.py` (path not in
the tree, exit 128), and succeeds otherwise. -/
def revMissingEnv : Env where
  git := fun c => match c with
    | GitCmd.showFile r p => if r = "deadbeef" || p = "absent.py" then ⟨128, ""⟩ else ⟨0, "x = 1\n"⟩
    | _ => ⟨0, ""⟩
  rel := fun f => f
  mkdtemp := fun _ => some "/tmp/t"
  writeRaises := fun _ _ => false
  analyzerAvailable := true
  analyze := fun _ _ => AnalyzerOut.invalid
  rmtreeOk := fun _ => true
  hasCallback := false

/-- Counterexample to claim C4: the claim says an unexpected command
failure such as "revision not found" signals `FetchFailure`, an outcome
distinct from absence.  In the code both a missing path and a missing
revision take the same `except CalledProcessError: return None` branch:
here the revision-not-found lookup and the path-absent lookup return the
very same value `none`, so no outcome distinct from absence exists. -/
theorem fetch_failure_indistinguishable_from_absence :
    get_file_content_at_commit revMissingEnv "deadbeef" "src/a.py" = none ∧
    get_file_content_at_commit revMissingEnv "a1b2c3d4e5" "absent.py" = none ∧
    get_file_content_at_commit revMissingEnv "deadbeef" "src/a.py" =
      get_file_content_at_commit revMissingEnv "a1b2c3d4e5" "absent.py" := by
  exact ⟨rfl, rfl, rfl⟩

/-- Claim C4 as amended: `fetchFileAtRevision` returns content exactly
when the underlying read-only `git show` exits successfully; every failure
of the command — a path that does not exist at the revision and an
unexpected failure such as revision-not-found alike — is collapsed into
the absent outcome, and no distinct `FetchFailure` outcome is produced. -/
theorem fetch_success_iff_command_succeeds (env : Env) (commit path : String) :
    (get_file_content_at_commit env commit path).isSome = true ↔
      (env.git (GitCmd.showFile commit path)).exitCode = 0 := by
  unfold get_file_content_at_commit
  by_cases h : (env.git (GitCmd.showFile commit path)).exitCode = 0 <;> simp [h]

/-! ## C6 -/

/-- An environment in which revision enumeration
(`git log --oneline --all`) fails with exit 128. -/
def enumFailEnv : Env where
  git := fun _ => ⟨128, ""⟩
  rel := fun f => f
  mkdtemp := fun _ => none
  writeRaises := fun _ _ => false
  analyzerAvailable := false
  analyze := fun _ _ => AnalyzerOut.invalid
  rmtreeOk := fun _ => true
  hasCallback := false

/-- Counterexample to claim C6: the claim says that when revision
enumeration fails the run fails with `RepositoryError`.  In the code
`analyze_all_commits` catches the `CalledProcessError`, prints an error,
and returns the empty dict — a normal return (`Except.ok`), not an
error: the caller cannot distinguish this from a repository with no
commits. -/
theorem enum_failure_returns_normally :
    run_history_analysis true "/repo" enumFailEnv [] =
      Except.ok { store := [], attempted := [], trace := [GitCmd.logOnelineAll],
                  progressMsgs := [], stderrMsgs := [msgEnumError], enumFailed := true } := by
  exact rfl

/-- Claim C6 as amended: if the target path is not a valid repository,
construction raises (`ValueError`) before any revision is processed; if
revision enumeration fails, the run does not raise — it prints an error
and returns normally with an empty result map; in both cases the
per-revision pipeline is never entered and no results are produced. -/
theorem invalid_repo_raises_enum_failure_returns_empty (gitDirExists : Bool)
    (repoPath : String) (env : Env) (targets : List String) :
    (gitDirExists = false →
      run_history_analysis gitDirExists repoPath env targets =
        Except.error ("Not a git repository: " ++ repoPath)) ∧
    (gitDirExists = true → (env.git GitCmd.logOnelineAll).exitCode ≠ 0 →
      run_history_analysis gitDirExists repoPath env targets =
        Except.ok { store := [], attempted := [], trace := [GitCmd.logOnelineAll],
                    progressMsgs := [], stderrMsgs := [msgEnumError], enumFailed := true }) := by
  constructor
  · intro h
    subst h
    rfl
  · intro h henum
    subst h
    unfold run_history_analysis analyze_all_commits
    simp [henum]

/-- Concrete instance of `invalid_repo_raises_enum_failure_returns_empty`
at an environment whose enumeration command fails. -/
theorem invalid_repo_raises_enum_failure_returns_empty_witness :
    run_history_analysis true "/repo2" enumFailEnv ["src/a.py"] =
      Except.ok { store := [], attempted := [], trace := [GitCmd.logOnelineAll],
                  progressMsgs := [], stderrMsgs := [msgEnumError], enumFailed := true } :=
  (invalid_repo_raises_enum_failure_returns_empty true "/repo2" enumFailEnv
    ["src/a.py"]).2 rfl (by decide)

/-! ## Store characterization (C3, C5) -/

/-- The storing decision of lines 213-215 for one revision, as a function
of that revision's own pass: a returned dict is kept iff `variables` or
`metadata` is non-empty; a `None` return is never kept. -/
def storeDecision (env : Env) (targets : List String) (c : String) : Option RawDict :=
  match (analyze_commit_safely env c targets).result with
  | some d => if meaningful d then some d else none
  | none => none

lemma storeDecision_eq_some (env : Env) (targets : List String) (c : String) (d : RawDict) :
    storeDecision env targets c = some d ↔
      ((analyze_commit_safely env c targets).result = some d ∧ meaningful d = true) := by
  unfold storeDecision
  cases hres : (analyze_commit_safely env c targets).result with
  | none => simp
  | some e =>
    by_cases hm : meaningful e
    · simp only [hm, if_true, Option.some_inj]
      constructor
      · rintro rfl
        exact ⟨rfl, hm⟩
      · rintro ⟨he, _⟩
        exact he
    · simp only [hm, if_false, Bool.false_eq_true]
      constructor
      · rintro ⟨⟩
      · rintro ⟨he, hmd⟩
        cases he
        exact absurd hmd (by simpa using hm)

lemma runLoop_attempted (env : Env) (targets : List String) (total : Nat) (i : Nat)
    (commits : List String) :
    (runLoop env targets total i commits).attempted = commits := by
  induction commits generalizing i with
  | nil => rfl
  | cons c cs ih =>
    simp only [runLoop]
    rw [ih]

lemma runLoop_store_mem (env : Env) (targets : List String) (total : Nat) (i : Nat)
    (commits : List String) (c : String) (d : RawDict) :
    (c, d) ∈ (runLoop env targets total i commits).store ↔
      c ∈ commits ∧ storeDecision env targets c = some d := by
  induction commits generalizing i with
  | nil => simp [runLoop]
  | cons h hs ih =>
    have hstored : ∀ x : String × RawDict,
        (x ∈ (match (analyze_commit_safely env h targets).result with
          | some e => if meaningful e then [(h, e)] else []
          | none => ([] : List (String × RawDict)))) ↔
          (x.1 = h ∧ storeDecision env targets h = some x.2) := by
      intro x
      unfold storeDecision
      cases (analyze_commit_safely env h targets).result with
      | none => simp
      | some e =>
        by_cases hm : meaningful e
        · simp only [hm, if_true, List.mem_singleton, Option.some_inj]
          constructor
          · rintro rfl
            exact ⟨rfl, rfl⟩
          · rintro ⟨h1, h2⟩
            cases x
            cases h1
            cases h2
            rfl
        · simp [hm]
    simp only [runLoop, List.mem_append, ih, List.mem_cons]
    rw [hstored (c, d)]
    constructor
    · rintro (⟨rfl, hdec⟩ | ⟨hmem, hdec⟩)
      · exact ⟨Or.inl rfl, hdec⟩
      · exact ⟨Or.inr hmem, hdec⟩
    · rintro ⟨rfl | hmem, hdec⟩
      · exact Or.inl ⟨rfl, hdec⟩
      · exact Or.inr ⟨hmem, hdec⟩

lemma runLoop_noData_mem (env : Env) (targets : List String) (total : Nat)
    (hcb : env.hasCallback = true) (i : Nat) (commits : List String) (c : String)
    (d : RawDict) (hmem : c ∈ commits)
    (hres : (analyze_commit_safely env c targets).result = some d)
    (hm : meaningful d = false) :
    msgNoData c ∈ (runLoop env targets total i commits).progressMsgs := by
  induction commits generalizing i with
  | nil => cases hmem
  | cons h hs ih =>
    rcases List.mem_cons.mp hmem with rfl | hmem'
    · simp [runLoop, hres, hm, hcb]
    · simp only [runLoop, List.mem_append]
      exact Or.inr (ih (i + 1) hmem')

lemma analyze_all_commits_eq_ok (env : Env) (targets : List String)
    (henum : (env.git GitCmd.logOnelineAll).exitCode = 0) :
    analyze_all_commits env targets =
      { store := (runLoop env targets
          (parseCommits (env.git GitCmd.logOnelineAll).stdout).length 0
          (parseCommits (env.git GitCmd.logOnelineAll).stdout)).store,
        attempted := (runLoop env targets
          (parseCommits (env.git GitCmd.logOnelineAll).stdout).length 0
          (parseCommits (env.git GitCmd.logOnelineAll).stdout)).attempted,
        trace := GitCmd.logOnelineAll :: (runLoop env targets
          (parseCommits (env.git GitCmd.logOnelineAll).stdout).length 0
          (parseCommits (env.git GitCmd.logOnelineAll).stdout)).trace,
        progressMsgs := (runLoop env targets
          (parseCommits (env.git GitCmd.logOnelineAll).stdout).length 0
          (parseCommits (env.git GitCmd.logOnelineAll).stdout)).progressMsgs,
        stderrMsgs := (runLoop env targets
          (parseCommits (env.git GitCmd.logOnelineAll).stdout).length 0
          (parseCommits (env.git GitCmd.logOnelineAll).stdout)).stderrMsgs,
        enumFailed := false } := by
  unfold analyze_all_commits
  simp [henum]

lemma passCore_failure_msgs (env : Env) (commit : String) (written : List String)
    (wRaised : Bool) (hcb : env.hasCallback = true)
    (h : (passCore env commit written wRaised).1 = none) :
    (passCore env commit written wRaised).2.1 ≠ [] ∨
    (passCore env commit written wRaised).2.2 ≠ [] := by
  by_cases h1 : wRaised
  · right
    simp [passCore, h1]
  · by_cases h2 : written.isEmpty
    · left
      simp [passCore, h1, h2, hcb]
    · by_cases h3 : env.analyzerAvailable
      · cases h4 : env.analyze commit written with
        | raiseExn =>
          right
          simp [passCore, h1, h2, h3, h4]
        | invalid =>
          left
          simp [passCore, h1, h2, h3, h4, hcb]
        | dict d =>
          by_cases h5 : d.truthy
          · exact absurd h (by simp [passCore, h1, h2, h3, h4, h5])
          · left
            simp [passCore, h1, h2, h3, h4, h5, hcb]
      · left
        simp [passCore, h1, h2, h3, hcb]

lemma pass_failure_emits_message (env : Env) (commit : String) (targets : List String)
    (hcb : env.hasCallback = true)
    (hres : (analyze_commit_safely env commit targets).result = none) :
    (analyze_commit_safely env commit targets).progressMsgs ≠ [msgAnalyzing commit] ∨
    (analyze_commit_safely env commit targets).stderrMsgs ≠ [] := by
  cases hmk : env.mkdtemp commit with
  | none =>
    right
    rw [pass_eq_of_mkdtemp_none env commit targets hmk]
    simp
  | some d =>
    rw [pass_eq_of_mkdtemp_some env commit targets d hmk] at hres ⊢
    rcases passCore_failure_msgs env commit
        (materializeLoop env commit d targets).2.1
        (materializeLoop env commit d targets).2.2 hcb hres with hmsg | hmsg
    · left
      simp only [hcb, if_true]
      intro heq
      apply hmsg
      simpa using congrArg List.tail heq
    · right
      intro heq
      exact hmsg (List.append_eq_nil.mp heq).1

/-! ## C3 -/

/-- An environment whose first enumerated commit fails (its `git show`
exits 128, so the pass finds no files and returns `None`) while the second
commit succeeds with a meaningful result. -/
def failFirstEnv : Env where
  git := fun c => match c with
    | GitCmd.logOnelineAll => ⟨0, "a1b2c3d4e5 first\nb2c3d4e5f6 second\n"⟩
    | GitCmd.showFile h _ => if h = "a1b2c3d4e5" then ⟨128, ""⟩ else ⟨0, "x = 1\n"⟩
    | _ => ⟨0, ""⟩
  rel := fun f => f
  mkdtemp := fun h => some ("/tmp/git_analysis_" ++ h.take 8 ++ "_x")
  writeRaises := fun _ _ => false
  analyzerAvailable := true
  analyze := fun _ _ => AnalyzerOut.dict ⟨some [("x", "assigned")], none, 0⟩
  rmtreeOk := fun _ => true
  hasCallback := true

/-- Claim C3: when enumeration succeeded, a per-revision failure never
aborts the traversal — the run completes (`enumFailed = false`), every
enumerated revision is attempted in enumeration order whatever the other
revisions did, a revision whose pass returned `None` is excluded from the
result map, a revision whose own pass stores meaningfully is in the map
regardless of any other revision's failure, and a failing pass emits a
message (a progress message beyond the announcement, or a stderr error). -/
theorem revision_failure_never_aborts_run (env : Env) (targets : List String)
    (henum : (env.git GitCmd.logOnelineAll).exitCode = 0)
    (hcb : env.hasCallback = true) :
    (analyze_all_commits env targets).enumFailed = false ∧
    (analyze_all_commits env targets).attempted =
      parseCommits (env.git GitCmd.logOnelineAll).stdout ∧
    (∀ c d, (analyze_commit_safely env c targets).result = none →
      (c, d) ∉ (analyze_all_commits env targets).store) ∧
    (∀ c d, c ∈ parseCommits (env.git GitCmd.logOnelineAll).stdout →
      storeDecision env targets c = some d →
      (c, d) ∈ (analyze_all_commits env targets).store) ∧
    (∀ c, (analyze_commit_safely env c targets).result = none →
      (analyze_commit_safely env c targets).progressMsgs ≠ [msgAnalyzing c] ∨
      (analyze_commit_safely env c targets).stderrMsgs ≠ []) := by
  rw [analyze_all_commits_eq_ok env targets henum]
  refine ⟨rfl, runLoop_attempted env targets _ 0 _, ?_, ?_, ?_⟩
  · intro c d hres hmem
    rcases (runLoop_store_mem env targets _ 0 _ c d).mp hmem with ⟨-, hdec⟩
    rw [storeDecision_eq_some] at hdec
    rw [hres] at hdec
    exact Option.noConfusion hdec.1
  · intro c d hmem hdec
    exact (runLoop_store_mem env targets _ 0 _ c d).mpr ⟨hmem, hdec⟩
  · intro c hres
    exact pass_failure_emits_message env c targets hcb hres

/-- Concrete instance of `revision_failure_never_aborts_run`: the first
commit's pass fails, yet the second commit is still attempted and its
result is stored. -/
theorem revision_failure_never_aborts_run_witness :
    (analyze_all_commits failFirstEnv ["src/a.py"]).attempted =
      ["a1b2c3d4e5", "b2c3d4e5f6"] ∧
    ("b2c3d4e5f6", (⟨some [("x", "assigned")], some [], 0⟩ : RawDict)) ∈
      (analyze_all_commits failFirstEnv ["src/a.py"]).store := by
  have h := revision_failure_never_aborts_run failFirstEnv ["src/a.py"] (by decide) rfl
  exact ⟨h.2.1.trans (by decide),
    h.2.2.2.1 "b2c3d4e5f6" ⟨some [("x", "assigned")], some [], 0⟩ (by decide) (by decide)⟩

/-! ## C5 -/

/-- An environment whose first commit yields a meaningful result and whose
second commit yields a present-but-empty result (a truthy dict whose
`variables` and `metadata` are empty). -/
def emptyResultEnv : Env where
  git := fun c => match c with
    | GitCmd.logOnelineAll => ⟨0, "a1b2c3d4e5 first\nb2c3d4e5f6 second\n"⟩
    | GitCmd.showFile _ _ => ⟨0, "x = 1\n"⟩
    | _ => ⟨0, ""⟩
  rel := fun f => f
  mkdtemp := fun h => some ("/tmp/git_analysis_" ++ h.take 8 ++ "_x")
  writeRaises := fun _ _ => false
  analyzerAvailable := true
  analyze := fun h _ =>
    if h = "a1b2c3d4e5" then AnalyzerOut.dict ⟨some [("x", "assigned")], none, 0⟩
    else AnalyzerOut.dict ⟨none, none, 3⟩
  rmtreeOk := fun _ => true
  hasCallback := true

/-- Claim C5: a revision is in the result map iff its pass returned a
present result with `variables` or `metadata` non-empty; a
present-but-empty result is discarded with a "no dataflow data" progress
note, and absent (`None`) passes are never stored. -/
theorem stored_iff_present_and_nonempty (env : Env) (targets : List String)
    (henum : (env.git GitCmd.logOnelineAll).exitCode = 0) (c : String) (d : RawDict) :
    ((c, d) ∈ (analyze_all_commits env targets).store ↔
      c ∈ parseCommits (env.git GitCmd.logOnelineAll).stdout ∧
      (analyze_commit_safely env c targets).result = some d ∧ meaningful d = true) ∧
    (env.hasCallback = true → c ∈ parseCommits (env.git GitCmd.logOnelineAll).stdout →
      (analyze_commit_safely env c targets).result = some d → meaningful d = false →
      msgNoData c ∈ (analyze_all_commits env targets).progressMsgs) := by
  rw [analyze_all_commits_eq_ok env targets henum]
  constructor
  · rw [runLoop_store_mem env targets _ 0 _ c d, storeDecision_eq_some]
  · intro hcb hmem hres hm
    exact runLoop_noData_mem env targets _ hcb 0 _ c d hmem hres hm

/-- Concrete instance of `stored_iff_present_and_nonempty`: the meaningful
result is stored; the present-but-empty result is not stored and produces
the "no dataflow data" note. -/
theorem stored_iff_present_and_nonempty_witness :
    ("a1b2c3d4e5", (⟨some [("x", "assigned")], some [], 0⟩ : RawDict)) ∈
      (analyze_all_commits emptyResultEnv ["src/a.py"]).store ∧
    msgNoData "b2c3d4e5f6" ∈ (analyze_all_commits emptyResultEnv ["src/a.py"]).progressMsgs := by
  constructor
  · exact (stored_iff_present_and_nonempty emptyResultEnv ["src/a.py"] (by decide)
      "a1b2c3d4e5" ⟨some [("x", "assigned")], some [], 0⟩).1.mpr
      ⟨by decide, by decide, by decide⟩
  · exact (stored_iff_present_and_nonempty emptyResultEnv ["src/a.py"] (by decide)
      "b2c3d4e5f6" ⟨some [], some [], 3⟩).2 rfl (by decide) (by decide) (by decide)

/-! ## C8 -/

lemma gui_step_inv {s t : GuiState} (hstep : GuiStep s t)
    (ih : (s.isAnalyzing = false → s.workers = 0) ∧ (s.isAnalyzing = true → s.workers = 1)) :
    (t.isAnalyzing = false → t.workers = 0) ∧ (t.isAnalyzing = true → t.workers = 1) := by
  cases hstep with
  | start v =>
    by_cases ha : s.isAnalyzing
    · have he : start_analysis v s = (StartOutcome.alreadyRunning, s) := by
        simp [start_analysis, ha]
      rw [he]
      exact ih
    · by_cases hv : v
      · have he : start_analysis v s =
            (StartOutcome.started, { isAnalyzing := true, workers := s.workers + 1 }) := by
          simp [start_analysis, ha, hv]
        rw [he]
        refine ⟨fun h => by simp at h, fun _ => ?_⟩
        show s.workers + 1 = 1
        rw [ih.1 (by simpa using ha)]
      · have he : start_analysis v s = (StartOutcome.validationFailed, s) := by
          simp [start_analysis, ha, hv]
        rw [he]
        exact ih
  | finish =>
    rename_i hw
    have hana : s.isAnalyzing = true := by
      cases hh : s.isAnalyzing
      · rw [ih.1 hh] at hw
        exact absurd hw (by simp)
      · rfl
    refine ⟨fun _ => ?_, fun h => by simp [finish_worker] at h⟩
    show s.workers - 1 = 0
    rw [ih.2 hana]

lemma gui_reachable_inv (s : GuiState) (hs : GuiReachable s) :
    (s.isAnalyzing = false → s.workers = 0) ∧ (s.isAnalyzing = true → s.workers = 1) := by
  induction hs with
  | init => exact ⟨fun _ => rfl, fun h => by simp at h⟩
  | step hr hstep ih => exact gui_step_inv hstep ih

/-- Claim C8: in every reachable orchestrator state, a `start_analysis`
call while a run is active returns the "already running" outcome at once
with the state unchanged — no second worker is started and nothing is
queued — and at most one analysis worker is ever active. -/
theorem second_run_rejected_and_single_worker (s : GuiState) (hs : GuiReachable s) :
    (s.isAnalyzing = true →
      ∀ v, start_analysis v s = (StartOutcome.alreadyRunning, s)) ∧
    s.workers ≤ 1 := by
  refine ⟨fun h v => by simp [start_analysis, h], ?_⟩
  rcases gui_reachable_inv s hs with ⟨h0, h1⟩
  cases ha : s.isAnalyzing
  · rw [h0 ha]
    exact Nat.zero_le 1
  · rw [h1 ha]

/-- Concrete instance of `second_run_rejected_and_single_worker` at the
reachable state with one active run: the second call is rejected with the
state unchanged, and the worker count is at most one. -/
theorem second_run_rejected_and_single_worker_witness :
    (∀ v, start_analysis v ⟨true, 1⟩ = (StartOutcome.alreadyRunning, ⟨true, 1⟩)) ∧
    (⟨true, 1⟩ : GuiState).workers ≤ 1 := by
  have h := second_run_rejected_and_single_worker ⟨true, 1⟩
    (GuiReachable.step GuiReachable.init (GuiStep.start true ⟨false, 0⟩))
  exact ⟨h.1 rfl, h.2⟩

/-! ## C9 -/

/-- Claim C9: every path the CMake parser records in `include_dirs` (and,
through `_parse_file_list`, in `source_files` / `header_files`) existed at
parse time — an argument whose resolved path does not exist is silently
skipped — and parsing is total: it never raises for an unresolved or
nonexistent path. -/
theorem cmake_records_only_existing_paths (ex : String → Bool) (sourceDir : String)
    (args fileLines : List String) :
    (parse_include_directories ex sourceDir args).all ex = true ∧
    (parse_file_list ex sourceDir fileLines).all ex = true := by
  constructor
  · induction args with
    | nil => rfl
    | cons a rest ih =>
      simp only [parse_include_directories, List.filterMap_cons] at ih ⊢
      by_cases h : ex (resolvePath sourceDir a)
      · simpa [h] using ih
      · simpa [h] using ih
  · induction fileLines with
    | nil => rfl
    | cons l ls ih =>
      simp only [parse_file_list]
      by_cases h1 : pyStartsWith (pyStrip l) ")"
      · simp [h1]
      · by_cases h2 : (pyStrip l ≠ "" && !pyStartsWith (pyStrip l) "#") = true
        · by_cases h3 : ex (resolvePath sourceDir (pyStrip l)) = true
          · simp only [h1, h2, h3, if_true, if_false, Bool.false_eq_true, List.all_cons,
              Bool.and_eq_true]
            exact ⟨trivial, ih⟩
          · simp only [Bool.not_eq_true] at h3
            simp only [h1, h2, h3, if_true, if_false, Bool.false_eq_true]
            exact ih
        · simp only [Bool.not_eq_true] at h2
          simp only [h1, h2, if_false, Bool.false_eq_true]
          exact ih

end DFGviz
